import Mathlib

/-!
Verification development for the crawler repository.

Shallow embedding of the parts of the source needed by the claims:

* `src/crawler/url_management/queue.py` — `QueuedURL`, `BloomFilter`, `URLQueue`
  (`put`, `get`, `get_with_rate_limit`, `_put_back_url`);
* `src/crawler/url_management/robots.py` — `RobotsChecker.get_crawl_delay`,
  `RobotsChecker.should_wait_for_crawl_delay`;
* `src/crawler/content/analyzer.py` — `WordFrequencyAnalyzer._extract_words`,
  `WordFrequencyAnalyzer.analyze_text` (the fields the claims mention);
* `src/crawler/core/worker.py` — `CrawlerWorker.process_url` and the body-decode
  step of `CrawlerWorker._fetch_page`.

Modelling conventions:

* Python floats used as wall-clock instants and delays are modelled as `Rat`.
* Library primitives that the source calls but does not define
  (`hashlib.md5(...).hexdigest()`, the builtin `hash`, `urlparse(...).netloc`)
  are taken as parameters, collected in the `Prims` structure.  No property of
  them is assumed anywhere.
* Python dicts keyed by strings are modelled as functions `String → Option _`,
  sets of strings as `String → Bool` or `List String`.
* `asyncio.PriorityQueue` is a binary heap over `QueuedURL.__lt__`; its `get`
  returns a minimal element.  It is modelled as a list from which `popMin`
  removes the leftmost minimal element with respect to the translated `__lt__`.
-/

/-- Library primitives used by the source, taken as parameters of the model:
`urlHash` stands for `hashlib.md5(url.encode()).hexdigest()` (queue.py line 32),
`pyHash` for Python's builtin `hash` on strings (queue.py line 76), and
`netloc` for `urlparse(url).netloc` (queue.py line 38). -/
structure Prims where
  urlHash : String → String
  pyHash : String → Int
  netloc : String → String

/-- Translation of the `QueuedURL` dataclass (queue.py lines 16-27).
Times are `Rat`, metadata is an association list. -/
structure QueuedURL where
  url : String
  depth : Int
  priority : Int
  parent_url : Option String
  discovered_at : Rat
  scheduled_at : Option Rat
  attempts : Int
  last_attempt_at : Option Rat
  metadata : List (String × String)
deriving DecidableEq, Repr

/-- Translation of `QueuedURL.url_hash` (queue.py lines 29-32). -/
def QueuedURL.url_hash (p : Prims) (q : QueuedURL) : String :=
  p.urlHash q.url

/-- Translation of `QueuedURL.domain` (queue.py lines 34-40). -/
def QueuedURL.domain (p : Prims) (q : QueuedURL) : String :=
  p.netloc q.url

/-- Translation of `QueuedURL.__lt__` (queue.py lines 42-50):
`self.priority > other.priority or (equal priority and self.depth < other.depth)
or (equal priority, equal depth and self.discovered_at < other.discovered_at)`. -/
def QueuedURL.lt (a b : QueuedURL) : Bool :=
  decide (b.priority < a.priority) ||
  (decide (a.priority = b.priority) && decide (a.depth < b.depth)) ||
  (decide (a.priority = b.priority) && decide (a.depth = b.depth) &&
   decide (a.discovered_at < b.discovered_at))

/-- The spec's ordering (spec.md section 4.1 Ordering): strict lexicographic
comparison on the triple (−priority, depth, discovered_at). -/
def QueuedURL.lexRank (a b : QueuedURL) : Prop :=
  -a.priority < -b.priority ∨
  (-a.priority = -b.priority ∧
    (a.depth < b.depth ∨ (a.depth = b.depth ∧ a.discovered_at < b.discovered_at)))

/-- Model of `asyncio.PriorityQueue.get` on the heap contents: remove the
leftmost minimal element with respect to `QueuedURL.lt`. -/
def popMin : List QueuedURL → Option (QueuedURL × List QueuedURL)
  | [] => none
  | a :: rest =>
    match popMin rest with
    | none => some (a, rest)
    | some (m, r) => if QueuedURL.lt m a then some (m, a :: r) else some (a, rest)

/-- Translation of the `BloomFilter` class state (queue.py lines 53-62).
In the source, `bit_array_size` and `hash_count` are computed from `capacity`
and `error_rate` with floating-point logarithm formulas (lines 64-72); the
model takes the two resulting integers as construction parameters, and the
claims hold for every value of them. -/
structure BloomFilter where
  bit_array_size : Nat
  hash_count : Nat
  bit_array : List Bool
  item_count : Nat
deriving DecidableEq, Repr

/-- Fresh bloom filter: `[False] * bit_array_size`, `item_count = 0`
(queue.py lines 61-62). -/
def BloomFilter.init (bitSize hashCount : Nat) : BloomFilter :=
  { bit_array_size := bitSize, hash_count := hashCount,
    bit_array := List.replicate bitSize false, item_count := 0 }

/-- Translation of `BloomFilter._hash` (queue.py lines 74-77):
`abs(hash(item + str(seed))) % self.bit_array_size`. -/
def BloomFilter.hashAt (pyHash : String → Int) (bf : BloomFilter)
    (item : String) (seed : Nat) : Nat :=
  (pyHash (item ++ toString seed)).natAbs % bf.bit_array_size

/-- Translation of `BloomFilter.add` (queue.py lines 79-84): set the bit at
`_hash(item, i)` for every `i < hash_count`, then bump `item_count`. -/
def BloomFilter.add (pyHash : String → Int) (bf : BloomFilter) (item : String) :
    BloomFilter :=
  { bf with
    bit_array := (List.range bf.hash_count).foldl
      (fun arr i => arr.set (bf.hashAt pyHash item i) true) bf.bit_array,
    item_count := bf.item_count + 1 }

/-- Translation of `BloomFilter.contains` (queue.py lines 86-92): true iff the
bit at `_hash(item, i)` is set for every `i < hash_count`. -/
def BloomFilter.contains (pyHash : String → Int) (bf : BloomFilter)
    (item : String) : Bool :=
  (List.range bf.hash_count).all fun i => bf.bit_array.getD (bf.hashAt pyHash item i) false


/-- Translation of the `URLQueue` state (queue.py lines 100-135).
Dicts keyed by url-hash or domain become functions into `Option`; the
priority heap becomes a list consumed through `popMin`; the statistics dict
becomes one field per counter the claims mention (`urls_processed` is an
`Int` because `_put_back_url` decrements it). -/
structure URLQueue where
  max_size : Nat
  enable_bloom_filter : Bool
  queue : List QueuedURL
  pending : String → Option QueuedURL
  visited : String → Bool
  bloom : Option BloomFilter
  domain_last_access : String → Option Rat
  domain_delays : String → Option Rat
  discovered_domains : List String
  stats_urls_added : Nat
  stats_urls_processed : Int
  stats_urls_skipped_duplicate : Nat
  stats_domains_discovered : Nat

/-- Translation of `URLQueue.__init__` (queue.py lines 105-135).  In the
source, the bloom filter is built as `BloomFilter(capacity=max_size * 2)`
whose bit-array size and hash count come from floating-point formulas; the
model receives those two integers as `bitSize` and `hashCount`. -/
def URLQueue.init (max_size : Nat) (enable_bloom : Bool) (bitSize hashCount : Nat) :
    URLQueue :=
  { max_size := max_size, enable_bloom_filter := enable_bloom,
    queue := [], pending := fun _ => none, visited := fun _ => false,
    bloom := if enable_bloom then some (BloomFilter.init bitSize hashCount) else none,
    domain_last_access := fun _ => none, domain_delays := fun _ => none,
    discovered_domains := [], stats_urls_added := 0, stats_urls_processed := 0,
    stats_urls_skipped_duplicate := 0, stats_domains_discovered := 0 }

/-- Translation of `asyncio.PriorityQueue.full` as used through
`URLQueue.full` (queue.py lines 429-431): false when `maxsize <= 0`,
otherwise `qsize >= maxsize`. -/
def URLQueue.isFull (q : URLQueue) : Bool :=
  decide (0 < q.max_size) && decide (q.max_size ≤ q.queue.length)

/-- Translation of `URLQueue.put` (queue.py lines 137-194).  `now` is the
value of `time.time()` captured in the `discovered_at` default.  Returns the
new state and the boolean result.  The three rejection branches touch only
`urls_skipped_duplicate`; the acceptance branch feeds the bloom filter,
tracks the domain, pushes onto the heap and records the pending entry. -/
def URLQueue.put (p : Prims) (now : Rat) (q : URLQueue) (url : String)
    (depth priority : Int) (parent_url : Option String)
    (metadata : List (String × String)) : URLQueue × Bool :=
  let qu : QueuedURL :=
    { url := url, depth := depth, priority := priority, parent_url := parent_url,
      discovered_at := now, scheduled_at := none, attempts := 0,
      last_attempt_at := none, metadata := metadata }
  let h := p.urlHash url
  let bloomDup := match q.bloom with
    | some bf => bf.contains p.pyHash h
    | none => false
  if bloomDup then
    ({ q with stats_urls_skipped_duplicate := q.stats_urls_skipped_duplicate + 1 }, false)
  else if (q.pending h).isSome then
    ({ q with stats_urls_skipped_duplicate := q.stats_urls_skipped_duplicate + 1 }, false)
  else if q.isFull then
    ({ q with stats_urls_skipped_duplicate := q.stats_urls_skipped_duplicate + 1 }, false)
  else
    let q1 := { q with bloom := match q.bloom with
      | some bf => some (bf.add p.pyHash h)
      | none => none }
    let d := p.netloc url
    let q2 := if d ≠ "" ∧ d ∉ q1.discovered_domains then
        { q1 with discovered_domains := d :: q1.discovered_domains,
                  stats_domains_discovered := q1.stats_domains_discovered + 1 }
      else q1
    ({ q2 with queue := q2.queue ++ [qu],
               pending := fun k => if k = h then some qu else q2.pending k,
               stats_urls_added := q2.stats_urls_added + 1 }, true)

/-- Translation of `URLQueue.get` (queue.py lines 196-225).  `now` is the
`time.time()` value read after the pop.  An empty heap stands for the
timeout path (`None`); otherwise the popped entry is removed from pending,
its hash is added to the visited set, `urls_processed` is bumped and, for a
non-empty domain, `last_access[domain]` is set to `now`. -/
def URLQueue.get (p : Prims) (now : Rat) (q : URLQueue) :
    URLQueue × Option QueuedURL :=
  match popMin q.queue with
  | none => (q, none)
  | some (qu, rest) =>
    let h := p.urlHash qu.url
    let d := p.netloc qu.url
    ({ q with queue := rest,
              pending := fun k => if k = h then none else q.pending k,
              visited := fun k => if k = h then true else q.visited k,
              stats_urls_processed := q.stats_urls_processed + 1,
              domain_last_access := if d = "" then q.domain_last_access
                else fun k => if k = d then some now else q.domain_last_access k },
     some qu)

/-- Translation of `URLQueue._put_back_url` (queue.py lines 335-357): if the
heap is full the entry is dropped with a warning; otherwise it is pushed
back, re-recorded in pending, and `urls_processed` is decremented. -/
def URLQueue.putBack (p : Prims) (qu : QueuedURL) (q : URLQueue) : URLQueue :=
  if q.isFull then q
  else
    { q with queue := q.queue ++ [qu],
             pending := fun k => if k = p.urlHash qu.url then some qu else q.pending k,
             stats_urls_processed := q.stats_urls_processed - 1 }

/-- Translation of one pass of the `URLQueue.get_with_rate_limit` loop body
(queue.py lines 227-333) for a call that decides on its first pop.  The
`time.time()` readings are threaded explicitly: `t0` is `start_time`, `t1`
the clock at the inner `self.get(...)`, `t2` the clock at the rate-limit
check.  The branches are, in source order: the timeout checks at the loop
head (lines 255-265), the inner `get` (line 270; an empty heap returns
`None`, line 281-283), the rate-limit comparison against
`_domain_last_access` (lines 300-313), the put-back-and-return-nil branch
(lines 313-319), and the sleep branch, which wakes at `t2 + wait` and then
stores that instant as the domain access time (lines 321-326). -/
def URLQueue.getWithRateLimitOnce (p : Prims) (domain_delay : Rat)
    (timeout : Option Rat) (t0 t1 t2 : Rat) (q : URLQueue) :
    URLQueue × Option QueuedURL :=
  let headOk := match timeout with
    | some t => decide (t1 - t0 < t) && decide (0 < t - (t1 - t0))
    | none => true
  if headOk = false then (q, none)
  else
    match URLQueue.get p t1 q with
    | (q1, none) => (q1, none)
    | (q1, some qu) =>
      let d := p.netloc qu.url
      if d = "" then (q1, some qu)
      else
        let last := (q1.domain_last_access d).getD 0
        let time_since_last := t2 - last
        if time_since_last < domain_delay then
          let wait := domain_delay - time_since_last
          match timeout with
          | some t =>
            if t - (t2 - t0) < wait then (URLQueue.putBack p qu q1, none)
            else
              ({ q1 with domain_last_access :=
                  fun k => if k = d then some (t2 + wait) else q1.domain_last_access k },
               some qu)
          | none =>
            ({ q1 with domain_last_access :=
                fun k => if k = d then some (t2 + wait) else q1.domain_last_access k },
             some qu)
        else (q1, some qu)

/-- Frontier operations of one session, as issued by callers of `URLQueue`:
`put` (queue.py line 137), `get` (line 196) and the internal put-back
(line 335, reached from `get_with_rate_limit`). -/
inductive QOp where
  | put (now : Rat) (url : String) (depth priority : Int)
        (parent_url : Option String) (metadata : List (String × String))
  | get (now : Rat)
  | putBack (qu : QueuedURL)

/-- Run a trace of frontier operations and collect, in order, the url-hash of
every `put` call that returned `True`. -/
def runAccepted (p : Prims) : URLQueue → List QOp → List String
  | _, [] => []
  | q, op :: ops =>
    match op with
    | .put now url depth priority parent meta =>
      let r := URLQueue.put p now q url depth priority parent meta
      (if r.2 then [p.urlHash url] else []) ++ runAccepted p r.1 ops
    | .get now => runAccepted p (URLQueue.get p now q).1 ops
    | .putBack qu => runAccepted p (URLQueue.putBack p qu q) ops

/-- Translation of the `RobotsChecker` state used by the claims
(robots.py lines 22-27): the per-domain crawl-delay cache and the
per-domain last-access map. -/
structure RobotsState where
  crawl_delays : String → Option Rat
  last_access : String → Option Rat

/-- Translation of `RobotsChecker.get_crawl_delay` (robots.py lines 89-133)
for a URL whose host is `host`.  `robotsDelay` stands for the value obtained
from the fetched robots.txt parser: `robots_parser.crawl_delay(ua)` defaulted
to `0.0`, or `0.0 when no parser is available (lines 112-127) — the network
fetch itself is outside the model.  An empty host returns `0.0`; a cached
host returns the cache unchanged; otherwise the obtained delay is cached. -/
def RobotsState.getCrawlDelay (robotsDelay : Rat) (host : String)
    (st : RobotsState) : RobotsState × Rat :=
  if host = "" then (st, 0)
  else match st.crawl_delays host with
  | some d => (st, d)
  | none =>
    ({ st with crawl_delays := fun k => if k = host then some robotsDelay else st.crawl_delays k },
     robotsDelay)

/-- Translation of `RobotsChecker.should_wait_for_crawl_delay`
(robots.py lines 178-217).  `now` is the `time.time()` reading at line 203.
The no-wait branch with a positive crawl delay stores `now` into
`_last_access[host]` (lines 207-210); the wait branch returns the remaining
time without touching the map (lines 211-214). -/
def RobotsState.shouldWaitForCrawlDelay (robotsDelay : Rat) (now : Rat)
    (host : String) (st : RobotsState) : RobotsState × Rat :=
  if host = "" then (st, 0)
  else
    let r := st.getCrawlDelay robotsDelay host
    let st1 := r.1
    let crawl_delay := r.2
    if crawl_delay ≤ 0 then (st1, 0)
    else
      let last := (st1.last_access host).getD 0
      let time_since_last := now - last
      if crawl_delay ≤ time_since_last then
        ({ st1 with last_access := fun k => if k = host then some now else st1.last_access k }, 0)
      else (st1, crawl_delay - time_since_last)

/-- ASCII letter test, the character class `[a-zA-Z]` of the word pattern
(analyzer.py line 60). -/
def isAsciiLetter (c : Char) : Bool :=
  (decide ('a' ≤ c) && decide (c ≤ 'z')) || (decide ('A' ≤ c) && decide (c ≤ 'Z'))

/-- Word character for the regex boundary `\b`: letter, digit or underscore. -/
def isWordChar (c : Char) : Bool :=
  isAsciiLetter c || c.isDigit || decide (c = '_')

/-- ASCII lower-casing, modelling `str.lower` on the texts the claims use. -/
def pyLowerChar (c : Char) : Char :=
  if decide ('A' ≤ c) && decide (c ≤ 'Z') then Char.ofNat (c.toNat + 32) else c

/-- Model of `re.compile(r'\b[a-zA-Z]+\b').findall` (analyzer.py lines 60 and
272): collect every maximal run of ASCII letters whose neighbours on both
sides are not word characters.  Arguments: remaining characters, previously
consumed character, current letter run (reversed), and whether the character
before the current run allowed a `\b` boundary. -/
def findWordsGo : List Char → Option Char → List Char → Bool → List String
  | [], _, run, ok =>
    if !run.isEmpty && ok then [String.mk run.reverse] else []
  | c :: rest, prev, run, ok =>
    if isAsciiLetter c then
      let okStart := if run.isEmpty then
          (match prev with | none => true | some pc => !isWordChar pc)
        else ok
      findWordsGo rest (some c) (c :: run) okStart
    else
      (if !run.isEmpty && ok && !isWordChar c then [String.mk run.reverse] else []) ++
      findWordsGo rest (some c) [] true

/-- All `\b[a-zA-Z]+\b` matches of a string, in order. -/
def findWords (s : String) : List String :=
  findWordsGo s.toList none [] true

/-- The built-in English stop-word set (analyzer.py lines 47-57). -/
def stopWords : List String :=
  ["a", "an", "and", "are", "as", "at", "be", "by", "for", "from",
   "has", "he", "in", "is", "it", "its", "of", "on", "that", "the",
   "to", "was", "will", "with", "the", "this", "but", "they", "have",
   "had", "what", "said", "each", "which", "she", "do", "how", "their",
   "if", "up", "out", "many", "then", "them", "these", "so", "some",
   "her", "would", "make", "like", "into", "him", "time", "two", "more",
   "go", "no", "way", "could", "my", "than", "first", "been", "call",
   "who", "oil", "sit", "now", "find", "down", "day", "did", "get",
   "come", "made", "may", "part"]

/-- Translation of `WordFrequencyAnalyzer._extract_words`
(analyzer.py lines 266-291): lower-case the text, run the word pattern, then
drop tokens shorter than 2 or longer than 50 characters, stop words (unless
`include_stopwords`), and non-alphabetic tokens. -/
def extractWords (text : String) (include_stopwords : Bool) : List String :=
  if text = "" then []
  else
    let words := findWords (String.mk (text.toList.map pyLowerChar))
    words.filter fun w =>
      !(decide (w.length < 2) || decide (50 < w.length)) &&
      (include_stopwords || !(stopWords.contains w)) &&
      (!w.isEmpty && w.toList.all (fun c => c.isAlpha))

/-- The fields of `WordAnalysis` (analyzer.py lines 14-24) that the claims
mention.  The `word_frequencies` dict is modelled by its lookup function
(0 for an absent key) together with the list of distinct keys. -/
structure WordAnalysisModel where
  word_frequencies : String → Nat
  freq_keys : List String
  total_words : Nat
  unique_words : Nat
deriving Inhabited

/-- Translation of `WordFrequencyAnalyzer._empty_analysis`
(analyzer.py lines 293-304), restricted to the modelled fields. -/
def emptyAnalysis : WordAnalysisModel :=
  { word_frequencies := fun _ => 0, freq_keys := [], total_words := 0,
    unique_words := 0 }

/-- Translation of `WordFrequencyAnalyzer.analyze_text`
(analyzer.py lines 69-125), restricted to the fields the claims mention:
`word_frequencies = dict(Counter(words))`, `total_words = len(words)`,
`unique_words = len(word_frequencies)`. -/
def analyzeText (text : String) (include_stopwords : Bool) : WordAnalysisModel :=
  if text = "" then emptyAnalysis
  else
    let words := extractWords text include_stopwords
    if words.isEmpty then emptyAnalysis
    else
      { word_frequencies := fun w => words.count w,
        freq_keys := words.eraseDups,
        total_words := words.length,
        unique_words := words.eraseDups.length }

/-- Outcomes and wall-clock durations of the pipeline stages of
`CrawlerWorker.process_url` (worker.py lines 116-189) for one input URL.
Each stage either produces its value or raises an exception whose `str` is
the carried message: `valid_url` is `self.url_validator.is_valid_url(url)`
(line 118), `fetch` is `self._fetch_page(url)` returning the decoded content
(line 124), `extract` the extracted text (lines 134-143), `process` the
cleaned text (line 152), `analyze` the word-frequency dict (line 162), and
`links` the validated outbound links (line 172). -/
structure PipelineEnv where
  valid_url : Bool
  fetch : Except String String
  fetch_time : Rat
  extract : Except String String
  extract_time : Rat
  process : Except String String
  process_time : Rat
  analyze : Except String (List (String × Nat))
  analyze_time : Rat
  links : Except String (List String)
  links_time : Rat
  total_time : Rat

/-- The result dictionary built by `CrawlerWorker.process_url`
(worker.py lines 100-114), restricted to the keys the claims mention.
`timing` is the association list of recorded stage durations in insertion
order. -/
structure WorkerResult where
  url : String
  depth : Int
  session_id : String
  parent_url : Option String
  worker_id : Int
  success : Bool
  error : Option String
  content_text : Option String
  links : List String
  word_frequencies : List (String × Nat)
  timing : List (String × Rat)
  size_bytes : Nat

/-- Translation of `CrawlerWorker.process_url` (worker.py lines 73-206).
The `try` body runs the stages in order, recording a timing entry as each
timed stage completes; the `except Exception` handler stores the exception
message in `error` and leaves `success` false (lines 191-194); the `finally`
block always appends the `total` timing entry (lines 201-204).  The function
is total: no exception escapes. -/
def processUrl (env : PipelineEnv) (url : String) (depth : Int)
    (session_id : String) (parent_url : Option String) (worker_id : Int) :
    WorkerResult :=
  let base : WorkerResult :=
    { url := url, depth := depth, session_id := session_id,
      parent_url := parent_url, worker_id := worker_id,
      success := false, error := none, content_text := none, links := [],
      word_frequencies := [], timing := [], size_bytes := 0 }
  let r :=
    if ¬env.valid_url then { base with error := some ("Invalid URL: " ++ url) }
    else match env.fetch with
    | .error e => { base with error := some e }
    | .ok content =>
      let b1 := { base with
        timing := base.timing ++ [("fetch", env.fetch_time)],
        size_bytes := content.length }
      match env.extract with
      | .error e => { b1 with error := some e }
      | .ok text =>
        let b2 := { b1 with
          timing := b1.timing ++ [("extract", env.extract_time)],
          content_text := some text }
        match env.process with
        | .error e => { b2 with error := some e }
        | .ok _cleaned =>
          let b3 := { b2 with timing := b2.timing ++ [("process", env.process_time)] }
          match env.analyze with
          | .error e => { b3 with error := some e }
          | .ok wf =>
            let b4 := { b3 with
              timing := b3.timing ++ [("analyze", env.analyze_time)],
              word_frequencies := wf }
            match env.links with
            | .error e => { b4 with error := some e }
            | .ok ls =>
              { b4 with
                timing := b4.timing ++ [("links", env.links_time)],
                links := ls, success := true }
  { r with timing := r.timing ++ [("total", env.total_time)] }

/-- Characterization following the spec's words (spec.md section 4.3): the
message of the first pipeline stage that raises, if any, in stage order
validate, fetch, extract, process, analyze, links. -/
def firstStageError (env : PipelineEnv) (url : String) : Option String :=
  if ¬env.valid_url then some ("Invalid URL: " ++ url)
  else match env.fetch with
  | .error e => some e
  | .ok _ => match env.extract with
    | .error e => some e
    | .ok _ => match env.process with
      | .error e => some e
      | .ok _ => match env.analyze with
        | .error e => some e
        | .ok _ => match env.links with
          | .error e => some e
          | .ok _ => none

/-- Characterization following the spec's words (spec.md section 4.3): the
timing entries of the timed stages that completed before the first failure,
in stage order. -/
def completedTimedStages (env : PipelineEnv) : List (String × Rat) :=
  if ¬env.valid_url then []
  else match env.fetch with
  | .error _ => []
  | .ok _ => ("fetch", env.fetch_time) :: match env.extract with
    | .error _ => []
    | .ok _ => ("extract", env.extract_time) :: match env.process with
      | .error _ => []
      | .ok _ => ("process", env.process_time) :: match env.analyze with
        | .error _ => []
        | .ok _ => ("analyze", env.analyze_time) :: match env.links with
          | .error _ => []
          | .ok _ => [("links", env.links_time)]

/-- Continuation-byte test for strict UTF-8: `0x80 ≤ b < 0xC0`. -/
def utf8Cont (b : Nat) : Bool :=
  decide (0x80 ≤ b) && decide (b < 0xC0)

/-- Strict UTF-8 decoding of a byte list, the model of Python's
`bytes.decode('utf-8')`: rejects stray continuation bytes, overlong forms,
surrogates and values beyond U+10FFFF.  `fuel` bounds the recursion; each
step consumes at least one byte, so `fuel = length` always suffices. -/
def utf8DecodeGo : Nat → List Nat → Option (List Char)
  | _, [] => some []
  | 0, _ :: _ => none
  | fuel + 1, b :: rest =>
    if b < 0x80 then
      (utf8DecodeGo fuel rest).map (fun cs => Char.ofNat b :: cs)
    else if b < 0xC2 then none
    else if b < 0xE0 then
      match rest with
      | c1 :: rest2 =>
        if utf8Cont c1 then
          (utf8DecodeGo fuel rest2).map
            (fun cs => Char.ofNat ((b - 0xC0) * 64 + (c1 - 0x80)) :: cs)
        else none
      | [] => none
    else if b < 0xF0 then
      match rest with
      | c1 :: c2 :: rest3 =>
        if utf8Cont c1 && utf8Cont c2 &&
           (decide (b ≠ 0xE0) || decide (0xA0 ≤ c1)) &&
           (decide (b ≠ 0xED) || decide (c1 < 0xA0)) then
          (utf8DecodeGo fuel rest3).map
            (fun cs => Char.ofNat ((b - 0xE0) * 4096 + (c1 - 0x80) * 64 + (c2 - 0x80)) :: cs)
        else none
      | _ => none
    else if b < 0xF5 then
      match rest with
      | c1 :: c2 :: c3 :: rest4 =>
        if utf8Cont c1 && utf8Cont c2 && utf8Cont c3 &&
           (decide (b ≠ 0xF0) || decide (0x90 ≤ c1)) &&
           (decide (b ≠ 0xF4) || decide (c1 < 0x90)) then
          (utf8DecodeGo fuel rest4).map
            (fun cs => Char.ofNat ((b - 0xF0) * 262144 + (c1 - 0x80) * 4096 +
                                   (c2 - 0x80) * 64 + (c3 - 0x80)) :: cs)
        else none
      | _ => none
    else none

/-- Model of `content.decode('utf-8')` (worker.py line 266). -/
def utf8Decode (bytes : List Nat) : Option (List Char) :=
  utf8DecodeGo bytes.length bytes

/-- Model of `content.decode('latin-1')`: every byte maps to the code point
of the same value, so decoding never fails. -/
def latin1Decode (bytes : List Nat) : Option (List Char) :=
  some (bytes.map Char.ofNat)

/-- The Windows-1252 mapping of one byte: bytes outside `0x80..0x9F` map to
themselves, the rest through the cp1252 table; `none` for the five
undefined bytes `0x81, 0x8D, 0x8F, 0x90, 0x9D`. -/
def cp1252Char (b : Nat) : Option Char :=
  if b < 0x80 ∨ 0xA0 ≤ b then some (Char.ofNat b)
  else match b with
  | 0x80 => some (Char.ofNat 0x20AC)
  | 0x82 => some (Char.ofNat 0x201A)
  | 0x83 => some (Char.ofNat 0x0192)
  | 0x84 => some (Char.ofNat 0x201E)
  | 0x85 => some (Char.ofNat 0x2026)
  | 0x86 => some (Char.ofNat 0x2020)
  | 0x87 => some (Char.ofNat 0x2021)
  | 0x88 => some (Char.ofNat 0x02C6)
  | 0x89 => some (Char.ofNat 0x2030)
  | 0x8A => some (Char.ofNat 0x0160)
  | 0x8B => some (Char.ofNat 0x2039)
  | 0x8C => some (Char.ofNat 0x0152)
  | 0x8E => some (Char.ofNat 0x017D)
  | 0x91 => some (Char.ofNat 0x2018)
  | 0x92 => some (Char.ofNat 0x2019)
  | 0x93 => some (Char.ofNat 0x201C)
  | 0x94 => some (Char.ofNat 0x201D)
  | 0x95 => some (Char.ofNat 0x2022)
  | 0x96 => some (Char.ofNat 0x2013)
  | 0x97 => some (Char.ofNat 0x2014)
  | 0x98 => some (Char.ofNat 0x02DC)
  | 0x99 => some (Char.ofNat 0x2122)
  | 0x9A => some (Char.ofNat 0x0161)
  | 0x9B => some (Char.ofNat 0x203A)
  | 0x9C => some (Char.ofNat 0x0153)
  | 0x9E => some (Char.ofNat 0x017E)
  | 0x9F => some (Char.ofNat 0x0178)
  | _ => none

/-- Model of `content.decode('cp1252')`. -/
def cp1252Decode (bytes : List Nat) : Option (List Char) :=
  bytes.mapM cp1252Char

/-- Model of `content.decode('iso-8859-1')`, which Python treats exactly as
latin-1. -/
def iso88591Decode (bytes : List Nat) : Option (List Char) :=
  latin1Decode bytes

/-- Translation of the decode step of `CrawlerWorker._fetch_page`
(worker.py lines 264-276): try `utf-8`; on `UnicodeDecodeError` fall back
through `latin-1`, `cp1252`, `iso-8859-1` in order; if the loop finishes
without a `break`, raise `ContentError("Unable to decode content")`. -/
def fetchDecode (bytes : List Nat) : Except String (List Char) :=
  match utf8Decode bytes with
  | some t => .ok t
  | none => match latin1Decode bytes with
    | some t => .ok t
    | none => match cp1252Decode bytes with
      | some t => .ok t
      | none => match iso88591Decode bytes with
        | some t => .ok t
        | none => .error "Unable to decode content"

/-- Decoder lookup by codec name, for the spec-side decode order. -/
def decodeByName (enc : String) (bytes : List Nat) : Option (List Char) :=
  if enc = "utf-8" then utf8Decode bytes
  else if enc = "latin-1" then latin1Decode bytes
  else if enc = "cp1252" then cp1252Decode bytes
  else if enc = "iso-8859-1" then iso88591Decode bytes
  else none

/-- Decode step following the spec's words (spec.md section 4.3 step 2 and
the claim): try the declared charset first, then fall back through `utf-8`,
`latin-1`, `cp1252`, `iso-8859-1`; `ContentError` when every decoding
fails.  Defined only to be compared with `fetchDecode`, the translation of
the source. -/
def specDeclaredFirstDecode (declared : String) (bytes : List Nat) :
    Except String (List Char) :=
  match decodeByName declared bytes with
  | some t => .ok t
  | none => match utf8Decode bytes with
    | some t => .ok t
    | none => match latin1Decode bytes with
      | some t => .ok t
      | none => match cp1252Decode bytes with
        | some t => .ok t
        | none => match iso88591Decode bytes with
          | some t => .ok t
          | none => .error "Unable to decode content"

/-- Concrete primitive instantiation for witnesses: identity url-hash,
string-length Python hash, empty netloc. -/
def primsId : Prims :=
  { urlHash := fun s => s, pyHash := fun s => (s.length : Int), netloc := fun _ => "" }

/-- Concrete primitive instantiation for witnesses whose URLs live on one
domain `x`. -/
def primsX : Prims :=
  { urlHash := fun s => s, pyHash := fun s => (s.length : Int), netloc := fun _ => "x" }

/-- A concrete frontier entry for witnesses. -/
def quX : QueuedURL :=
  { url := "u", depth := 0, priority := 0, parent_url := none, discovered_at := 0,
    scheduled_at := none, attempts := 0, last_attempt_at := none, metadata := [] }

/-- A concrete one-entry frontier whose pending map matches its heap. -/
def queueX : URLQueue :=
  { URLQueue.init 10 false 0 0 with
    queue := [quX], pending := fun k => if k = "u" then some quX else none }

/-- Concrete operation trace for the dedup witness: accept a URL, take it
with `get`, then offer the same URL again. -/
def c1Ops : List QOp :=
  [QOp.put 0 "a" 0 0 none [], QOp.get 1, QOp.put 2 "a" 0 0 none []]

/-- Concrete entries for the comparator witness. -/
def quA : QueuedURL := { quX with url := "a", priority := 2 }

/-- Second comparator witness entry. -/
def quB : QueuedURL := { quX with url := "b", priority := 1 }

/-- Third comparator witness entry. -/
def quC : QueuedURL := { quX with url := "c", priority := 0 }

/-- Concrete robots-checker state: host `h` has a cached crawl delay of 2
seconds and has never been accessed. -/
def robotsFresh : RobotsState :=
  { crawl_delays := fun k => if k = "h" then some 2 else none,
    last_access := fun _ => none }

/-- Concrete robots-checker state: host `h` has a cached crawl delay of 5
seconds and was last accessed at instant 8. -/
def robotsRecent : RobotsState :=
  { crawl_delays := fun k => if k = "h" then some 5 else none,
    last_access := fun k => if k = "h" then some 8 else none }

/-- A concrete full frontier with capacity 1: one accepted URL. -/
def queueFullOne : URLQueue :=
  (URLQueue.put primsId 0 (URLQueue.init 1 false 0 0) "a" 0 0 none []).1

/-- Robots-checker state whose cached crawl delay for host `h` is zero. -/
def robotsZero : RobotsState :=
  { crawl_delays := fun k => if k = "h" then some 0 else none,
    last_access := fun _ => none }

theorem popMin_perm : ∀ (l rest : List QueuedURL) (x : QueuedURL),
    popMin l = some (x, rest) → l.Perm (x :: rest) := by
  intro l
  induction l with
  | nil => intro rest x h; simp [popMin] at h
  | cons a t ih =>
    intro rest x h
    rw [popMin] at h
    cases ht : popMin t with
    | none =>
      rw [ht] at h
      simp only [Option.some.injEq, Prod.mk.injEq] at h
      obtain ⟨hx, hr⟩ := h
      subst hx; subst hr
      exact List.Perm.refl _
    | some mr =>
      obtain ⟨m, r⟩ := mr
      rw [ht] at h
      by_cases hlt : QueuedURL.lt m a = true
      · simp only [hlt, if_true, Option.some.injEq, Prod.mk.injEq] at h
        obtain ⟨hx, hr⟩ := h
        subst hx; subst hr
        have hperm : t.Perm (m :: r) := ih r m ht
        exact (hperm.cons a).trans (List.Perm.swap m a r)
      · simp only [hlt, if_neg, Bool.false_eq_true, reduceIte,
          Option.some.injEq, Prod.mk.injEq] at h
        obtain ⟨hx, hr⟩ := h
        subst hx; subst hr
        exact List.Perm.refl _

theorem popMin_length (l rest : List QueuedURL) (x : QueuedURL)
    (h : popMin l = some (x, rest)) : l.length = rest.length + 1 := by
  have := (popMin_perm l rest x h).length_eq
  simpa using this


theorem getD_set_true (arr : List Bool) (j i : Nat)
    (h : arr.getD i false = true) : (arr.set j true).getD i false = true := by
  by_cases hij : j = i
  · subst hij
    by_cases hlen : j < arr.length
    · simp [List.getD, List.getElem?_set_self hlen]
    · rw [List.set_eq_of_length_le (by omega)]
      exact h
  · simpa [List.getD, List.getElem?_set_ne hij] using h

theorem foldl_set_true_preserves (f : Nat → Nat) (l : List Nat) :
    ∀ (arr : List Bool) (i : Nat), arr.getD i false = true →
    (l.foldl (fun a j => a.set (f j) true) arr).getD i false = true := by
  induction l with
  | nil => intro arr i h; exact h
  | cons b t ih =>
    intro arr i h
    rw [List.foldl_cons]
    exact ih _ i (getD_set_true arr (f b) i h)

theorem foldl_set_true_length (f : Nat → Nat) (l : List Nat) :
    ∀ (arr : List Bool),
    (l.foldl (fun a j => a.set (f j) true) arr).length = arr.length := by
  induction l with
  | nil => intro arr; rfl
  | cons b t ih =>
    intro arr
    rw [List.foldl_cons, ih]
    exact List.length_set ..

theorem foldl_set_true_hits (f : Nat → Nat) (l : List Nat) :
    ∀ (arr : List Bool) (j : Nat), j ∈ l → f j < arr.length →
    (l.foldl (fun a i => a.set (f i) true) arr).getD (f j) false = true := by
  induction l with
  | nil => intro arr j hj _; cases hj
  | cons b t ih =>
    intro arr j hj hb
    rw [List.foldl_cons]
    rcases List.mem_cons.mp hj with hj | hj
    · subst hj
      apply foldl_set_true_preserves
      simp [List.getD, List.getElem?_set_self hb]
    · exact ih (arr.set (f b) true) j hj (by rw [List.length_set]; exact hb)

/-- Bits are only ever set by `add`, never cleared, so membership is stable
under further insertions. -/
theorem BloomFilter.contains_mono (pyHash : String → Int) (bf : BloomFilter)
    (x y : String) (h : bf.contains pyHash x = true) :
    (bf.add pyHash y).contains pyHash x = true := by
  simp only [BloomFilter.contains, List.all_eq_true, decide_eq_true_eq] at h ⊢
  intro i hi
  have hx := h i hi
  simp only [BloomFilter.add, BloomFilter.hashAt]
  exact foldl_set_true_preserves _ _ _ _ hx

theorem BloomFilter.add_length (pyHash : String → Int) (bf : BloomFilter) (y : String) :
    (bf.add pyHash y).bit_array.length = bf.bit_array.length :=
  foldl_set_true_length _ _ _

/-- Just after `add x`, every probe bit of `x` is set, so `contains x` holds —
provided the bit array really has `bit_array_size` entries and the size is
positive (in the source a zero size would raise `ZeroDivisionError` in
`_hash`). -/
theorem BloomFilter.contains_add_self (pyHash : String → Int) (bf : BloomFilter)
    (x : String) (hlen : bf.bit_array.length = bf.bit_array_size)
    (hpos : 0 < bf.bit_array_size) :
    (bf.add pyHash x).contains pyHash x = true := by
  simp only [BloomFilter.contains, List.all_eq_true, decide_eq_true_eq]
  intro i hi
  simp only [BloomFilter.add, BloomFilter.hashAt]
  exact foldl_set_true_hits _ _ _ i hi (by rw [hlen]; exact Nat.mod_lt _ hpos)

theorem lexRank_trans (a b c : QueuedURL) (h1 : QueuedURL.lexRank a b)
    (h2 : QueuedURL.lexRank b c) : QueuedURL.lexRank a c := by
  rcases h1 with h1 | ⟨e1, h1⟩ <;> rcases h2 with h2 | ⟨e2, h2⟩
  · left; omega
  · left; omega
  · left; omega
  · right
    refine ⟨by omega, ?_⟩
    rcases h1 with h1 | ⟨d1, h1⟩ <;> rcases h2 with h2 | ⟨d2, h2⟩
    · left; omega
    · left; omega
    · left; omega
    · right; exact ⟨by omega, lt_trans h1 h2⟩

theorem lt_iff_lexRank (a b : QueuedURL) :
    QueuedURL.lt a b = true ↔ QueuedURL.lexRank a b := by
  simp only [QueuedURL.lt, QueuedURL.lexRank, Bool.or_eq_true, Bool.and_eq_true,
    decide_eq_true_eq]
  constructor
  · rintro ((h | ⟨h1, h2⟩) | ⟨⟨h1, h2⟩, h3⟩)
    · left; omega
    · right; exact ⟨by omega, Or.inl h2⟩
    · right; exact ⟨by omega, Or.inr ⟨h2, h3⟩⟩
  · rintro (h | ⟨h1, h2 | ⟨h2, h3⟩⟩)
    · exact Or.inl (Or.inl (by omega))
    · exact Or.inl (Or.inr ⟨by omega, h2⟩)
    · exact Or.inr ⟨⟨by omega, h2⟩, h3⟩

/-- C6: `QueuedURL.__lt__` holds iff (−priority, depth, discovered_at) is
strictly lexicographically smaller, and it is a strict order: irreflexive
and transitive, ranking higher priority first, then shallower depth, then
earlier discovery. -/
theorem c6_queue_ordering_comparator :
    (∀ a b : QueuedURL, QueuedURL.lt a b = true ↔ QueuedURL.lexRank a b) ∧
    (∀ a : QueuedURL, QueuedURL.lt a a = false) ∧
    (∀ a b c : QueuedURL, QueuedURL.lt a b = true → QueuedURL.lt b c = true →
      QueuedURL.lt a c = true) := by
  refine ⟨lt_iff_lexRank, ?_, ?_⟩
  · intro a
    simp [QueuedURL.lt]
  · intro a b c hab hbc
    exact (lt_iff_lexRank a c).mpr
      (lexRank_trans a b c ((lt_iff_lexRank a b).mp hab) ((lt_iff_lexRank b c).mp hbc))

/-- Witness for C6 at concrete entries of priorities 2, 1, 0. -/
theorem c6_queue_ordering_comparator_witness :
    (QueuedURL.lt quA quB = true ↔ QueuedURL.lexRank quA quB) ∧
    QueuedURL.lt quA quA = false ∧
    QueuedURL.lt quA quC = true :=
  ⟨c6_queue_ordering_comparator.1 quA quB, c6_queue_ordering_comparator.2.1 quA,
   c6_queue_ordering_comparator.2.2 quA quB quC (by decide) (by decide)⟩

theorem foldl_add_contains (pyHash : String → Int) (x : String) (ys : List String) :
    ∀ (b : BloomFilter), b.contains pyHash x = true →
    (ys.foldl (fun acc y => acc.add pyHash y) b).contains pyHash x = true := by
  induction ys with
  | nil => intro b h; exact h
  | cons y t ih =>
    intro b h
    rw [List.foldl_cons]
    exact ih _ (BloomFilter.contains_mono pyHash b x y h)

/-- C9: the bloom filter has no false negatives — after `add x`,
`contains x` is true, and it stays true after any further sequence of `add`
calls, because bits are only ever set.  The two hypotheses say the bit array
really has `bit_array_size` entries and the size is positive (a zero size
raises `ZeroDivisionError` in the source). -/
theorem c9_bloom_no_false_negatives (pyHash : String → Int) (bf : BloomFilter)
    (x : String) (ys : List String)
    (hlen : bf.bit_array.length = bf.bit_array_size)
    (hpos : 0 < bf.bit_array_size) :
    (ys.foldl (fun acc y => acc.add pyHash y) (bf.add pyHash x)).contains pyHash x = true :=
  foldl_add_contains pyHash x ys _ (BloomFilter.contains_add_self pyHash bf x hlen hpos)

/-- Witness for C9: a fresh 8-bit filter with 2 probes, adding `u` then
`v` and `w`. -/
theorem c9_bloom_no_false_negatives_witness :
    (BloomFilter.init 8 2).bit_array.length = (BloomFilter.init 8 2).bit_array_size ∧
    0 < (BloomFilter.init 8 2).bit_array_size ∧
    ((["v", "w"] : List String).foldl
      (fun acc y => acc.add (fun s => (s.length : Int)) y)
      ((BloomFilter.init 8 2).add (fun s => (s.length : Int)) "u")).contains
        (fun s => (s.length : Int)) "u" = true :=
  ⟨by decide, by decide,
   c9_bloom_no_false_negatives (fun s => (s.length : Int)) (BloomFilter.init 8 2)
     "u" ["v", "w"] (by decide) (by decide)⟩

/-- C7 counterexample: on the scenario S1 body text, `analyze_text` reports
`total_words = 3` (the number of surviving tokens), not 2 as the claim
states. -/
theorem c7_counterexample_total_words :
    (analyzeText "hello world hello" false).total_words = 3 ∧
    ¬((analyzeText "hello world hello" false).total_words = 2) := by
  exact ⟨by decide, by decide⟩

/-- C7 as amended: the word analyzer on the S1 body text yields frequencies
hello ↦ 2 and world ↦ 1, `total_words = 3`, `unique_words = 2`, with both
words surviving the stop-word filter. -/
theorem c7_amended_s1_word_analysis :
    (analyzeText "hello world hello" false).word_frequencies "hello" = 2 ∧
    (analyzeText "hello world hello" false).word_frequencies "world" = 1 ∧
    (analyzeText "hello world hello" false).total_words = 3 ∧
    (analyzeText "hello world hello" false).unique_words = 2 ∧
    (analyzeText "hello world hello" false).freq_keys = ["hello", "world"] ∧
    ¬("hello" ∈ stopWords) ∧ ¬("world" ∈ stopWords) := by
  exact ⟨by decide, by decide, by decide, by decide, by decide, by decide, by decide⟩

/-- C8 counterexample: the decode step never consults the declared charset.
On the byte string `C3 A9` (valid UTF-8 for `é`, declared as latin-1) the
source decodes with UTF-8 and yields `é`, while the spec's declared-first
order would yield `Ã©`. -/
theorem c8_counterexample_declared_charset_ignored :
    fetchDecode [0xC3, 0xA9] = .ok ['é'] ∧
    specDeclaredFirstDecode "latin-1" [0xC3, 0xA9] = .ok ['Ã', '©'] ∧
    ¬(fetchDecode [0xC3, 0xA9] = specDeclaredFirstDecode "latin-1" [0xC3, 0xA9]) := by
  have h1 : fetchDecode [0xC3, 0xA9] = .ok ['é'] := rfl
  have h2 : specDeclaredFirstDecode "latin-1" [0xC3, 0xA9] = .ok ['Ã', '©'] := rfl
  refine ⟨h1, h2, ?_⟩
  rw [h1, h2]
  intro h
  injection h with h
  exact absurd h (by decide)

/-- C8 as amended: the decode step tries utf-8 first (not the declared
charset), then falls back through latin-1, cp1252, iso-8859-1 in that order,
producing the first succeeding decoding; `ContentError` is raised exactly
when every decoding in that sequence fails. -/
theorem c8_amended_decode_fallback (bytes : List Nat) :
    (∀ t, utf8Decode bytes = some t → fetchDecode bytes = .ok t) ∧
    (∀ t, utf8Decode bytes = none → latin1Decode bytes = some t →
      fetchDecode bytes = .ok t) ∧
    (∀ t, utf8Decode bytes = none → latin1Decode bytes = none →
      cp1252Decode bytes = some t → fetchDecode bytes = .ok t) ∧
    (∀ t, utf8Decode bytes = none → latin1Decode bytes = none →
      cp1252Decode bytes = none → iso88591Decode bytes = some t →
      fetchDecode bytes = .ok t) ∧
    (fetchDecode bytes = .error "Unable to decode content" ↔
      utf8Decode bytes = none ∧ latin1Decode bytes = none ∧
      cp1252Decode bytes = none ∧ iso88591Decode bytes = none) := by
  unfold fetchDecode
  cases hu : utf8Decode bytes <;> cases hl : latin1Decode bytes <;>
    cases hc : cp1252Decode bytes <;> cases hi : iso88591Decode bytes <;> simp_all

/-- Witness for C8: the lone byte `E9` is invalid UTF-8 and falls back to
latin-1, which reads it as `é`. -/
theorem c8_amended_decode_fallback_witness :
    utf8Decode [0xE9] = none ∧ latin1Decode [0xE9] = some ['é'] ∧
    fetchDecode [0xE9] = .ok ['é'] :=
  ⟨rfl, rfl, (c8_amended_decode_fallback [0xE9]).2.1 ['é'] rfl rfl⟩

/-- C2: `process_url` always returns a result with a `total` timing entry;
its `error` field is the message of the first failing stage (none if all
succeed), `success` is true exactly when no stage failed, and the timing map
lists exactly the timed stages that completed before the failure, followed
by `total`.  The model is a total function, so no exception escapes. -/
theorem c2_worker_error_boundary (env : PipelineEnv) (url : String) (depth : Int)
    (sid : String) (parent : Option String) (wid : Int) :
    (processUrl env url depth sid parent wid).error = firstStageError env url ∧
    (processUrl env url depth sid parent wid).success =
      (firstStageError env url).isNone ∧
    (processUrl env url depth sid parent wid).timing =
      completedTimedStages env ++ [("total", env.total_time)] := by
  cases hv : env.valid_url <;> cases hf : env.fetch <;> cases he : env.extract <;>
    cases hp : env.process <;> cases ha : env.analyze <;> cases hl : env.links <;>
    simp [processUrl, firstStageError, completedTimedStages, hv, hf, he, hp, ha, hl]

theorem put_reject_frame_aux (p : Prims) (now : Rat) (q : URLQueue) (url : String)
    (depth priority : Int) (parent : Option String) (meta : List (String × String))
    (h : (URLQueue.put p now q url depth priority parent meta).2 = false) :
    (URLQueue.put p now q url depth priority parent meta).1.queue = q.queue ∧
    (URLQueue.put p now q url depth priority parent meta).1.pending = q.pending ∧
    (URLQueue.put p now q url depth priority parent meta).1.visited = q.visited ∧
    (URLQueue.put p now q url depth priority parent meta).1.bloom = q.bloom ∧
    (URLQueue.put p now q url depth priority parent meta).1.discovered_domains =
      q.discovered_domains ∧
    (URLQueue.put p now q url depth priority parent meta).1.domain_last_access =
      q.domain_last_access := by
  by_cases h1 : (match q.bloom with
    | some bf => bf.contains p.pyHash (p.urlHash url)
    | none => false) = true
  · simp [URLQueue.put, h1]
  · by_cases h2 : (q.pending (p.urlHash url)).isSome = true
    · simp [URLQueue.put, h1, h2]
    · by_cases h3 : q.isFull = true
      · simp [URLQueue.put, h1, h2, h3]
      · exfalso
        simp [URLQueue.put, h1, h2, h3] at h

/-- C10: every `put` call that returns `False` (duplicate in the bloom
filter, duplicate in the pending map, or queue at capacity) leaves the heap,
the pending map, the visited set, the bloom filter, the discovered-domains
set and the domain timestamps unchanged; only statistics counters may
change. -/
theorem c10_put_rejection_frame (p : Prims) (now : Rat) (q : URLQueue) (url : String)
    (depth priority : Int) (parent : Option String) (meta : List (String × String))
    (h : (URLQueue.put p now q url depth priority parent meta).2 = false) :
    (URLQueue.put p now q url depth priority parent meta).1.queue = q.queue ∧
    (URLQueue.put p now q url depth priority parent meta).1.pending = q.pending ∧
    (URLQueue.put p now q url depth priority parent meta).1.visited = q.visited ∧
    (URLQueue.put p now q url depth priority parent meta).1.bloom = q.bloom ∧
    (URLQueue.put p now q url depth priority parent meta).1.discovered_domains =
      q.discovered_domains ∧
    (URLQueue.put p now q url depth priority parent meta).1.domain_last_access =
      q.domain_last_access :=
  put_reject_frame_aux p now q url depth priority parent meta h

/-- Witness for C10: a capacity-1 frontier holding one URL rejects a second
one, leaving everything but the statistics unchanged. -/
theorem c10_put_rejection_frame_witness :
    (URLQueue.put primsId 1 queueFullOne "b" 0 0 none []).2 = false ∧
    ((URLQueue.put primsId 1 queueFullOne "b" 0 0 none []).1.queue = queueFullOne.queue ∧
     (URLQueue.put primsId 1 queueFullOne "b" 0 0 none []).1.pending = queueFullOne.pending ∧
     (URLQueue.put primsId 1 queueFullOne "b" 0 0 none []).1.visited = queueFullOne.visited ∧
     (URLQueue.put primsId 1 queueFullOne "b" 0 0 none []).1.bloom = queueFullOne.bloom ∧
     (URLQueue.put primsId 1 queueFullOne "b" 0 0 none []).1.discovered_domains =
       queueFullOne.discovered_domains ∧
     (URLQueue.put primsId 1 queueFullOne "b" 0 0 none []).1.domain_last_access =
       queueFullOne.domain_last_access) :=
  ⟨by decide, c10_put_rejection_frame primsId 1 queueFullOne "b" 0 0 none [] (by decide)⟩

theorem URLQueue.putBack_domain_last_access (p : Prims) (qu : QueuedURL) (q : URLQueue) :
    (URLQueue.putBack p qu q).domain_last_access = q.domain_last_access := by
  unfold URLQueue.putBack
  split <;> rfl

theorem URLQueue.putBack_bloom (p : Prims) (qu : QueuedURL) (q : URLQueue) :
    (URLQueue.putBack p qu q).bloom = q.bloom := by
  unfold URLQueue.putBack
  split <;> rfl

theorem gwrl_withdraw_eq (p : Prims) (delay T t0 t1 t2 : Rat) (q : URLQueue)
    (qu : QueuedURL) (rest : List QueuedURL)
    (hpop : popMin q.queue = some (qu, rest))
    (hdom : ¬(p.netloc qu.url = ""))
    (hsize : q.queue.length ≤ q.max_size)
    (hhead : t1 - t0 < T)
    (hrl : t2 - t1 < delay)
    (hbudget : T - (t2 - t0) < delay - (t2 - t1)) :
    URLQueue.getWithRateLimitOnce p delay (some T) t0 t1 t2 q =
      ({ q with
         queue := rest ++ [qu],
         pending := fun k => if k = p.urlHash qu.url then some qu else q.pending k,
         visited := fun k => if k = p.urlHash qu.url then true else q.visited k,
         domain_last_access :=
           fun k => if k = p.netloc qu.url then some t1 else q.domain_last_access k },
       none) := by
  have hd2 : (0:Rat) < T - (t1 - t0) := by linarith
  have hpb : URLQueue.getWithRateLimitOnce p delay (some T) t0 t1 t2 q =
      (URLQueue.putBack p qu
        { q with
          queue := rest,
          pending := fun k => if k = p.urlHash qu.url then none else q.pending k,
          visited := fun k => if k = p.urlHash qu.url then true else q.visited k,
          stats_urls_processed := q.stats_urls_processed + 1,
          domain_last_access :=
            fun k => if k = p.netloc qu.url then some t1 else q.domain_last_access k },
       none) := by
    simp [URLQueue.getWithRateLimitOnce, URLQueue.get, hpop, hhead, hd2, hrl, hbudget, hdom]
  have hlen := popMin_length q.queue rest qu hpop
  have hfull : (decide (0 < q.max_size) && decide (q.max_size ≤ rest.length)) = false := by
    by_cases hm : 0 < q.max_size
    · have hnot : ¬(q.max_size ≤ rest.length) := by omega
      simp [hnot]
    · simp [hm]
  rw [hpb]
  simp only [URLQueue.putBack, URLQueue.isFull, hfull, Bool.false_eq_true, if_false]
  have hstats : q.stats_urls_processed + 1 - 1 = q.stats_urls_processed := by omega
  have hpend2 : (fun k => if k = p.urlHash qu.url then some qu
      else if k = p.urlHash qu.url then none else q.pending k) =
      (fun k => if k = p.urlHash qu.url then some qu else q.pending k) := by
    funext k
    by_cases hk : k = p.urlHash qu.url <;> simp [hk]
  simp only [hstats, hpend2]

/-- C3: whenever `get_with_rate_limit` pops a URL whose domain delay cannot
be honored within the remaining timeout budget, the call returns `None`, the
identical popped entry is reinserted (the heap contents are a permutation of
the original heap and still contain the entry), the pending map is restored,
and `urls_processed` is back to its value before the call.  The hypotheses
select the withdraw branch: a successful pop, a non-empty domain, the popped
entry recorded in pending, a bounded heap, a passing head timeout check, a
rate-limit hit at the check instant `t2`, and a wait exceeding the remaining
budget. -/
theorem c3_rate_limit_withdrawal_roundtrip (p : Prims) (delay T t0 t1 t2 : Rat)
    (q : URLQueue) (qu : QueuedURL) (rest : List QueuedURL)
    (hpop : popMin q.queue = some (qu, rest))
    (hdom : ¬(p.netloc qu.url = ""))
    (hpend : q.pending (p.urlHash qu.url) = some qu)
    (hsize : q.queue.length ≤ q.max_size)
    (hhead : t1 - t0 < T)
    (hrl : t2 - t1 < delay)
    (hbudget : T - (t2 - t0) < delay - (t2 - t1)) :
    (URLQueue.getWithRateLimitOnce p delay (some T) t0 t1 t2 q).2 = none ∧
    (URLQueue.getWithRateLimitOnce p delay (some T) t0 t1 t2 q).1.queue.Perm q.queue ∧
    (URLQueue.getWithRateLimitOnce p delay (some T) t0 t1 t2 q).1.pending = q.pending ∧
    (URLQueue.getWithRateLimitOnce p delay (some T) t0 t1 t2 q).1.stats_urls_processed =
      q.stats_urls_processed ∧
    qu ∈ (URLQueue.getWithRateLimitOnce p delay (some T) t0 t1 t2 q).1.queue := by
  rw [gwrl_withdraw_eq p delay T t0 t1 t2 q qu rest hpop hdom hsize hhead hrl hbudget]
  refine ⟨rfl, ?_, ?_, rfl, by simp⟩
  · exact (List.perm_append_singleton qu rest).trans (popMin_perm q.queue rest qu hpop).symm
  · funext k
    by_cases hk : k = p.urlHash qu.url
    · subst hk
      simp [hpend]
    · simp [hk]

/-- Witness for C3: a one-entry frontier on domain `x`, delay 5, timeout
budget 2, all clocks at 3. -/
theorem c3_rate_limit_withdrawal_roundtrip_witness :
    popMin queueX.queue = some (quX, []) ∧
    ¬(primsX.netloc quX.url = "") ∧
    queueX.pending (primsX.urlHash quX.url) = some quX ∧
    queueX.queue.length ≤ queueX.max_size ∧
    ((3:Rat) - 3 < 2) ∧ ((3:Rat) - 3 < 5) ∧ ((2:Rat) - (3 - 3) < 5 - (3 - 3)) ∧
    ((URLQueue.getWithRateLimitOnce primsX 5 (some 2) 3 3 3 queueX).2 = none ∧
     (URLQueue.getWithRateLimitOnce primsX 5 (some 2) 3 3 3 queueX).1.queue.Perm
       queueX.queue ∧
     (URLQueue.getWithRateLimitOnce primsX 5 (some 2) 3 3 3 queueX).1.pending =
       queueX.pending ∧
     (URLQueue.getWithRateLimitOnce primsX 5 (some 2) 3 3 3
       queueX).1.stats_urls_processed = queueX.stats_urls_processed ∧
     quX ∈ (URLQueue.getWithRateLimitOnce primsX 5 (some 2) 3 3 3 queueX).1.queue) :=
  ⟨rfl, by decide, by decide, by decide,
   by simp only [sub_self]; decide, by simp only [sub_self]; decide,
   by simp only [sub_self, sub_zero]; decide,
   c3_rate_limit_withdrawal_roundtrip primsX 5 2 3 3 3 queueX quX [] rfl (by decide)
     (by decide) (by decide) (by simp only [sub_self]; decide)
     (by simp only [sub_self]; decide) (by simp only [sub_self, sub_zero]; decide)⟩

/-- C4 counterexample: a `get_with_rate_limit` call that withdraws the only
URL of domain `x` and returns it to the queue for lack of timeout budget
still sets `last_access[x]` to the pop instant 3, whereas the domain had
never been accessed before the call — the claim says the timestamp would be
left unchanged. -/
theorem c4_counterexample_last_access_updated_on_putback :
    (URLQueue.getWithRateLimitOnce primsX 5 (some 2) 3 3 3 queueX).2 = none ∧
    (URLQueue.getWithRateLimitOnce primsX 5 (some 2) 3 3 3 queueX).1.queue = [quX] ∧
    (URLQueue.getWithRateLimitOnce primsX 5 (some 2) 3 3 3 queueX).1.domain_last_access
      "x" = some 3 ∧
    queueX.domain_last_access "x" = none := by
  rw [gwrl_withdraw_eq primsX 5 2 3 3 3 queueX quX [] rfl (by decide) (by decide)
    (by simp only [sub_self]; decide) (by simp only [sub_self]; decide)
    (by simp only [sub_self, sub_zero]; decide)]
  exact ⟨rfl, rfl, by simp [primsX], rfl⟩

/-- C4 as amended: the domain timestamp is written by every successful pop
inside `get`, including the pop performed by a `get_with_rate_limit` call
that subsequently returns the URL to the queue — after such a withdraw-and-
put-back call, `last_access[D]` equals the pop instant `t1`, not its prior
value; other domains are untouched. -/
theorem c4_amended_last_access_update (p : Prims) (delay T t0 t1 t2 : Rat)
    (q : URLQueue) (qu : QueuedURL) (rest : List QueuedURL)
    (hpop : popMin q.queue = some (qu, rest))
    (hdom : ¬(p.netloc qu.url = ""))
    (hsize : q.queue.length ≤ q.max_size)
    (hhead : t1 - t0 < T)
    (hrl : t2 - t1 < delay)
    (hbudget : T - (t2 - t0) < delay - (t2 - t1)) :
    (URLQueue.getWithRateLimitOnce p delay (some T) t0 t1 t2 q).2 = none ∧
    (URLQueue.getWithRateLimitOnce p delay (some T) t0 t1 t2 q).1.domain_last_access
      (p.netloc qu.url) = some t1 ∧
    (∀ k, ¬(k = p.netloc qu.url) →
      (URLQueue.getWithRateLimitOnce p delay (some T) t0 t1 t2 q).1.domain_last_access k =
        q.domain_last_access k) := by
  rw [gwrl_withdraw_eq p delay T t0 t1 t2 q qu rest hpop hdom hsize hhead hrl hbudget]
  refine ⟨rfl, by simp, ?_⟩
  intro k hk
  simp [hk]

/-- Witness for C4's amended statement at the concrete withdraw scenario. -/
theorem c4_amended_last_access_update_witness :
    popMin queueX.queue = some (quX, []) ∧
    ¬(primsX.netloc quX.url = "") ∧
    queueX.queue.length ≤ queueX.max_size ∧
    ((3:Rat) - 3 < 2) ∧ ((3:Rat) - 3 < 5) ∧ ((2:Rat) - (3 - 3) < 5 - (3 - 3)) ∧
    ((URLQueue.getWithRateLimitOnce primsX 5 (some 2) 3 3 3 queueX).2 = none ∧
     (URLQueue.getWithRateLimitOnce primsX 5 (some 2) 3 3 3 queueX).1.domain_last_access
       (primsX.netloc quX.url) = some 3 ∧
     (∀ k, ¬(k = primsX.netloc quX.url) →
       (URLQueue.getWithRateLimitOnce primsX 5 (some 2) 3 3 3 queueX).1.domain_last_access
         k = queueX.domain_last_access k)) :=
  ⟨rfl, by decide, by decide,
   by simp only [sub_self]; decide, by simp only [sub_self]; decide,
   by simp only [sub_self, sub_zero]; decide,
   c4_amended_last_access_update primsX 5 2 3 3 3 queueX quX [] rfl (by decide)
     (by decide) (by simp only [sub_self]; decide) (by simp only [sub_self]; decide)
     (by simp only [sub_self, sub_zero]; decide)⟩

/-- C5 counterexample: with a cached crawl delay of 2 for host `h` and no
recorded access, `should_wait_for_crawl_delay` at instant 100 returns 0 (no
wait) but writes `_last_access[h] := 100` — the claim says the call mutates
no checker state. -/
theorem c5_counterexample_mutation_on_no_wait :
    (RobotsState.shouldWaitForCrawlDelay 0 100 "h" robotsFresh).2 = 0 ∧
    (RobotsState.shouldWaitForCrawlDelay 0 100 "h" robotsFresh).1.last_access "h" =
      some 100 ∧
    robotsFresh.last_access "h" = none := by
  have hs : ¬("h" = "") := by decide
  refine ⟨?_, ?_, rfl⟩ <;>
    norm_num [RobotsState.shouldWaitForCrawlDelay, RobotsState.getCrawlDelay,
      robotsFresh, hs]

/-- C5 as amended: for a cached crawl delay `cd` of the URL's host, the call
returns `max 0 (cd − (now − last_access[host]))` when `cd` is positive and 0
when no positive crawl delay is configured; the wait-needed outcome leaves
the state unchanged, but the no-wait outcome with a positive delay sets
`_last_access[host]` to `now` (leaving other hosts and the delay cache
untouched). -/
theorem c5_amended_crawl_delay_query (robotsDelay now cd : Rat) (host : String)
    (st : RobotsState)
    (hh : ¬(host = "")) (hc : st.crawl_delays host = some cd) :
    ((0:Rat) < cd →
      (RobotsState.shouldWaitForCrawlDelay robotsDelay now host st).2 =
        max 0 (cd - (now - (st.last_access host).getD 0))) ∧
    (cd ≤ 0 → RobotsState.shouldWaitForCrawlDelay robotsDelay now host st = (st, 0)) ∧
    (0 < cd → cd ≤ now - (st.last_access host).getD 0 →
      (RobotsState.shouldWaitForCrawlDelay robotsDelay now host st).2 = 0 ∧
      (RobotsState.shouldWaitForCrawlDelay robotsDelay now host st).1.crawl_delays =
        st.crawl_delays ∧
      (RobotsState.shouldWaitForCrawlDelay robotsDelay now host st).1.last_access host =
        some now ∧
      (∀ k, ¬(k = host) →
        (RobotsState.shouldWaitForCrawlDelay robotsDelay now host st).1.last_access k =
          st.last_access k)) ∧
    (0 < cd → now - (st.last_access host).getD 0 < cd →
      (RobotsState.shouldWaitForCrawlDelay robotsDelay now host st).1 = st ∧
      (RobotsState.shouldWaitForCrawlDelay robotsDelay now host st).2 =
        cd - (now - (st.last_access host).getD 0)) := by
  unfold RobotsState.shouldWaitForCrawlDelay RobotsState.getCrawlDelay
  simp only [hh, hc, if_false, if_neg]
  refine ⟨?_, ?_, ?_, ?_⟩
  · intro hcd
    rw [if_neg (not_le.mpr hcd)]
    by_cases hw : cd ≤ now - (st.last_access host).getD 0
    · rw [if_pos hw, max_eq_left (by linarith)]
    · rw [if_neg hw, max_eq_right (by linarith)]
  · intro hcd
    rw [if_pos hcd]
  · intro hcd hw
    rw [if_neg (not_le.mpr hcd), if_pos hw]
    refine ⟨rfl, rfl, by simp, ?_⟩
    intro k hk
    simp [hk]
  · intro hcd hw
    rw [if_neg (not_le.mpr hcd), if_neg (not_le.mpr hw)]
    exact ⟨rfl, rfl⟩

/-- Witness for C5's amended statement: a host with a cached zero crawl
delay gets answer 0 with the state returned unchanged. -/
theorem c5_amended_crawl_delay_query_witness :
    ¬("h" = "") ∧ robotsZero.crawl_delays "h" = some 0 ∧ ((0:Rat) ≤ 0) ∧
    RobotsState.shouldWaitForCrawlDelay 7 100 "h" robotsZero = (robotsZero, 0) :=
  ⟨by decide, rfl, by decide,
   (c5_amended_crawl_delay_query 7 100 0 "h" robotsZero (by decide) rfl).2.1
     (by decide)⟩

/-- C1 counterexample: with `enable_bloom_filter = False`, a URL accepted by
`put`, taken by `get`, and offered to `put` again is accepted a second time,
so two `put` calls returning `True` carry the same url-hash — the claim says
this holds for every configuration including the bloom filter disabled. -/
theorem c1_counterexample_dedup_bloom_disabled :
    (URLQueue.put primsId 0 (URLQueue.init 10 false 0 0) "u" 0 0 none []).2 = true ∧
    (URLQueue.put primsId 2
      (URLQueue.get primsId 1
        (URLQueue.put primsId 0 (URLQueue.init 10 false 0 0) "u" 0 0 none []).1).1
      "u" 0 0 none []).2 = true ∧
    primsId.urlHash "u" = primsId.urlHash "u" := by
  exact ⟨by decide, by decide, rfl⟩

theorem URLQueue.get_bloom (p : Prims) (now : Rat) (q : URLQueue) :
    (URLQueue.get p now q).1.bloom = q.bloom := by
  unfold URLQueue.get
  rcases hpop : popMin q.queue with _ | ⟨qu, rest⟩ <;> simp

theorem URLQueue.put_accepted_bloom (p : Prims) (now : Rat) (q : URLQueue)
    (url : String) (depth priority : Int) (parent : Option String)
    (meta : List (String × String)) (bf : BloomFilter) (hb : q.bloom = some bf)
    (h : (URLQueue.put p now q url depth priority parent meta).2 = true) :
    (URLQueue.put p now q url depth priority parent meta).1.bloom =
      some (bf.add p.pyHash (p.urlHash url)) ∧
    bf.contains p.pyHash (p.urlHash url) = false := by
  by_cases h1 : (match q.bloom with
    | some bf => bf.contains p.pyHash (p.urlHash url)
    | none => false) = true
  · exfalso
    simp [URLQueue.put, h1] at h
  · have hcont : bf.contains p.pyHash (p.urlHash url) = false := by
      rw [hb] at h1
      simpa using h1
    refine ⟨?_, hcont⟩
    by_cases h2 : (q.pending (p.urlHash url)).isSome = true
    · exfalso
      simp [URLQueue.put, h1, h2] at h
    · by_cases h3 : q.isFull = true
      · exfalso
        simp [URLQueue.put, h1, h2, h3] at h
      · by_cases hd : p.netloc url ≠ "" ∧ p.netloc url ∉ q.discovered_domains
        · simp [URLQueue.put, h1, h2, h3, hd, hb, hcont]
        · simp [URLQueue.put, h1, h2, h3, hd, hb, hcont]

theorem runAccepted_nodup_aux (p : Prims) :
    ∀ (ops : List QOp) (q : URLQueue) (bf : BloomFilter) (hs : List String),
    q.bloom = some bf →
    bf.bit_array.length = bf.bit_array_size →
    0 < bf.bit_array_size →
    (∀ h0 ∈ hs, bf.contains p.pyHash h0 = true) →
    hs.Nodup →
    (hs ++ runAccepted p q ops).Nodup := by
  intro ops
  induction ops with
  | nil =>
    intro q bf hs _ _ _ _ hnd
    simpa [runAccepted] using hnd
  | cons op t ih =>
    intro q bf hs hb hlen hpos htrack hnd
    cases op with
    | get now =>
      simp only [runAccepted]
      exact ih _ bf hs (by rw [URLQueue.get_bloom]; exact hb) hlen hpos htrack hnd
    | putBack qu =>
      simp only [runAccepted]
      exact ih _ bf hs (by rw [URLQueue.putBack_bloom]; exact hb) hlen hpos htrack hnd
    | put now url depth priority parent meta =>
      simp only [runAccepted]
      by_cases hacc : (URLQueue.put p now q url depth priority parent meta).2 = true
      · obtain ⟨hb2, hcont⟩ :=
          URLQueue.put_accepted_bloom p now q url depth priority parent meta bf hb hacc
        have hnotin : p.urlHash url ∉ hs := by
          intro hmem
          rw [htrack _ hmem] at hcont
          cases hcont
        rw [hacc]
        simp only [if_true, List.singleton_append]
        rw [List.append_cons]
        refine ih _ (bf.add p.pyHash (p.urlHash url)) (hs ++ [p.urlHash url]) hb2 ?_ ?_ ?_ ?_
        · rw [BloomFilter.add_length]
          exact hlen
        · exact hpos
        · intro h0 hmem
          rcases List.mem_append.mp hmem with hmem | hmem
          · exact BloomFilter.contains_mono p.pyHash bf h0 _ (htrack _ hmem)
          · have heq : h0 = p.urlHash url := by simpa using hmem
            subst heq
            exact BloomFilter.contains_add_self p.pyHash bf _ hlen hpos
        · rw [List.nodup_append]
          exact ⟨hnd, List.nodup_singleton _, by simpa [List.disjoint_singleton] using hnotin⟩
      · have hacc2 : (URLQueue.put p now q url depth priority parent meta).2 = false := by
          simpa using hacc
        have hfr := (put_reject_frame_aux p now q url depth priority parent meta hacc2).2.2.2.1
        rw [hacc2]
        simp only [Bool.false_eq_true, if_false, List.nil_append]
        exact ih _ bf hs (by rw [hfr]; exact hb) hlen hpos htrack hnd

/-- C1 as amended: with the bloom filter enabled (a well-formed filter of
positive size), the url-hashes of all `put` calls that return `True` over
any session trace of `put`, `get` and put-back operations are pairwise
distinct — every accepted hash is recorded in the filter, which has no
false negatives, so a later `put` of the same hash is rejected whether the
URL is still pending, was taken by `get`, or was returned to the queue.
With the filter disabled, only currently-pending URLs are rejected. -/
theorem c1_amended_dedup_bloom_enabled (p : Prims) (ops : List QOp) (q : URLQueue)
    (bf : BloomFilter) (hb : q.bloom = some bf)
    (hlen : bf.bit_array.length = bf.bit_array_size)
    (hpos : 0 < bf.bit_array_size) :
    (runAccepted p q ops).Nodup := by
  have h := runAccepted_nodup_aux p ops q bf [] hb hlen hpos (by simp) List.nodup_nil
  simpa using h

/-- Witness for C1's amended statement: a bloom-enabled frontier running the
trace put a, get, put a accepts only the first put. -/
theorem c1_amended_dedup_bloom_enabled_witness :
    (URLQueue.init 10 true 8 2).bloom = some (BloomFilter.init 8 2) ∧
    (BloomFilter.init 8 2).bit_array.length = (BloomFilter.init 8 2).bit_array_size ∧
    0 < (BloomFilter.init 8 2).bit_array_size ∧
    (runAccepted primsId (URLQueue.init 10 true 8 2) c1Ops).Nodup :=
  ⟨rfl, by decide, by decide,
   c1_amended_dedup_bloom_enabled primsId c1Ops (URLQueue.init 10 true 8 2)
     (BloomFilter.init 8 2) rfl (by decide) (by decide)⟩
